import Mathlib

/-!
# Verification of the persona-scraper core logic

Shallow embedding of the scraper's core algorithms, translated from the
JavaScript sources:

* `src/scrapers/youtube.js`   — `getVideos` pagination loop (`ytLoop`)
* `src/scrapers/twitter.js`   — `getUserTweets` pagination loop (`twLoop`)
* `src/scrapers/instagram.js` — rate-limiter configuration (1 concurrent, 3000 ms)
* `src/index.js`              — `scrapePersona` per-platform error isolation
* `src/utils/dataOrganizer.js`— text mining (`extractCommonPhrases`,
  `extractSentencesContaining`, `extractIdeologyFromText`) and profile
  finalization (`analyzePersonaProfile`)

JavaScript numbers are modelled as `Nat` (all quantities involved are
non-negative counts and string indices), JS arrays as `List`, JS objects used
as string-keyed insertion-ordered maps as association lists, and thrown
exceptions as `Except String`.
-/

/-! ## Pagination loops (youtube.js `getVideos`, twitter.js `getUserTweets`)

The loops are run against the mock source required by the spec's testable
property: a source holding a fixed total `T` of items, served from position
`pos`; a page request asking for `asked` items returns the next
`min asked (T - pos)` items and a next-page cursor iff items remain.
Items are represented by their position index. -/

/-- youtube.js `getVideos` (lines 124-148): `while (videos.length < limit)`,
requesting `maxResults = Math.min(50, limit - videos.length)`, appending the
page's items, then `nextPageToken = response.data.nextPageToken;
if (!nextPageToken) break;`.  Returns the accumulated items and the number of
page calls issued. -/
def ytLoop (T L : Nat) (acc : List Nat) (pos calls : Nat) : List Nat × Nat :=
  if h : acc.length < L then
    -- page size asked: `Math.min(50, limit - videos.length)`;
    -- the mock serves `min asked (T - pos)` items; `nextPageToken` is present
    -- iff items remain (`pos + k < T`), and the next cursor is `pos + k`.
    if h2 : pos + min (min 50 (L - acc.length)) (T - pos) < T then
      ytLoop T L (acc ++ (List.range (min (min 50 (L - acc.length)) (T - pos))).map (pos + ·))
        (pos + min (min 50 (L - acc.length)) (T - pos)) (calls + 1)
    else (acc ++ (List.range (min (min 50 (L - acc.length)) (T - pos))).map (pos + ·), calls + 1)
  else (acc, calls)
termination_by L - acc.length
decreasing_by
  simp only [List.length_append, List.length_map, List.length_range]
  omega

/-- JS `x || d` for an optional numeric argument: `null`/`undefined` and `0`
are falsy and fall back to the default. -/
def jsOrDefault (m : Option Nat) (d : Nat) : Nat :=
  match m with
  | none => d
  | some v => if v = 0 then d else v

/-- config.js `limits.youtube.maxVideos`. -/
def ytDefaultMaxVideos : Nat := 100

/-- config.js `limits.twitter.maxTweets`. -/
def twDefaultMaxTweets : Nat := 200

/-- youtube.js `getVideos(channelId, maxVideos = null)` run against the mock
source: line 112 `const limit = maxVideos || config.limits.youtube.maxVideos`
resolves the loop limit — a requested `0` is falsy and falls back to the
configured default of 100. -/
def getVideosMock (T : Nat) (maxVideos : Option Nat) : List Nat × Nat :=
  ytLoop T (jsOrDefault maxVideos ytDefaultMaxVideos) [] 0 0

/-- twitter.js `getUserTweets` (lines 102-140): same loop with page cap 100,
a `break` on an empty page before pushing, and a final `tweets.slice(0, limit)`. -/
def twLoop (T L : Nat) (acc : List Nat) (pos calls : Nat) : List Nat × Nat :=
  if h : acc.length < L then
    -- page size asked: `Math.min(100, limit - tweets.length)`; an empty page
    -- (`response.data.data.length === 0`) breaks before pushing.
    if h0 : min (min 100 (L - acc.length)) (T - pos) = 0 then (acc, calls + 1)
    else
      if h2 : pos + min (min 100 (L - acc.length)) (T - pos) < T then
        twLoop T L (acc ++ (List.range (min (min 100 (L - acc.length)) (T - pos))).map (pos + ·))
          (pos + min (min 100 (L - acc.length)) (T - pos)) (calls + 1)
      else (acc ++ (List.range (min (min 100 (L - acc.length)) (T - pos))).map (pos + ·), calls + 1)
  else (acc, calls)
termination_by L - acc.length
decreasing_by
  simp only [List.length_append, List.length_map, List.length_range]
  omega

/-- twitter.js `getUserTweets(userId, maxTweets = null)` run against the mock
source: line 94 `const limit = maxTweets || config.limits.twitter.maxTweets`
resolves the loop limit (a requested `0` is falsy and falls back to the
configured default of 200), with the final `tweets.slice(0, limit)`. -/
def getUserTweetsMock (T : Nat) (maxTweets : Option Nat) : List Nat × Nat :=
  ((twLoop T (jsOrDefault maxTweets twDefaultMaxTweets) [] 0 0).1.take
      (jsOrDefault maxTweets twDefaultMaxTweets),
   (twLoop T (jsOrDefault maxTweets twDefaultMaxTweets) [] 0 0).2)

/-! ## Rate limiter (modelled from the spec)

Modelled from the spec: `src/utils/rateLimiter.js` is imported by every
scraper (`new RateLimiter(...)`) but the file itself is not part of the
repository snapshot.  Spec §4.1: the queue starts tasks in submission order,
runs at most `concurrency` tasks simultaneously, and no two dispatches start
closer together than the configured interval.  With `concurrency = 1` the
next task is dispatched once the previous task has finished and at least
`delay` ms have elapsed since the previous dispatch.  Time is modelled as
abstract ms ticks; each task supplies its duration. -/

structure RLConfig where
  concurrency : Nat
  delay : Nat
deriving DecidableEq, Repr

/-- instagram.js lines 15-18: `new RateLimiter({ delay: 3000, concurrency: 1 })`. -/
def instagramRL : RLConfig := ⟨1, 3000⟩

/-- Modelled from the spec: the schedule of a concurrency-1 queue.  Given the
dispatch time `t` of the next task and the durations of the remaining tasks,
produces the list of (start time, duration) pairs in submission order. -/
def rlSched (d : Nat) (t : Nat) : List Nat → List (Nat × Nat)
  | [] => []
  | dur :: rest => (t, dur) :: rlSched d (t + max d dur) rest

/-- Number of tasks running at instant `t` (dispatched, not yet finished). -/
def rlRunning (sched : List (Nat × Nat)) (t : Nat) : Nat :=
  sched.countP (fun sd => decide (sd.1 ≤ t) && decide (t < sd.1 + sd.2))

/-! ## Orchestrator (index.js `scrapePersona`, lines 63-98) -/

/-- A platform's slot in the result bundle: the scraped data, or an `{error}`
marker holding the thrown error's message. -/
inductive PlatformEntry (α : Type) where
  | ok (data : α)
  | err (msg : String)
deriving DecidableEq, Repr

/-- index.js lines 63-98: iterate the platform→handle mapping, skip falsy
handles (`if (!handle) continue`), and per platform record either the fetched
data or `{ error: error.message }` — the `try`/`catch` never lets a platform
failure escape the loop. -/
def scrapePersonaEntries {α : Type} (fetch : String → String → Except String α)
    (platforms : List (String × String)) : List (String × PlatformEntry α) :=
  platforms.flatMap (fun ph =>
    if ph.2 = "" then []
    else [(ph.1, match fetch ph.1 ph.2 with
                 | .ok d => .ok d
                 | .error e => .err e)])

/-! ## Nested-detail degradation (youtube.js `getVideoComments`, `scrapeChannel`) -/

/-- A video as far as comment attachment is concerned. -/
structure MockVideo where
  vid : String
  comments : List String
deriving DecidableEq, Repr

/-- youtube.js lines 211-248: the body of `getVideoComments` (the paginated
comment fetch, abstracted as its outcome) is wrapped in `try`/`catch`; the
`catch` logs a warning and returns `[]`. -/
def getVideoCommentsSafe (outcome : Except String (List String)) : List String :=
  match outcome with
  | .ok cs => cs
  | .error _ => []

/-- youtube.js lines 283-290: for `recentVideos = videos.slice(0,
Math.min(10, videos.length))`, set `video.comments = await
this.getVideoComments(video.videoId, ...)`; the remaining videos are left
untouched and all videos are returned. -/
def attachComments (videos : List MockVideo)
    (fetch : String → Except String (List String)) : List MockVideo :=
  (videos.take (min 10 videos.length)).map
      (fun v => { v with comments := getVideoCommentsSafe (fetch v.vid) })
    ++ videos.drop (min 10 videos.length)

/-! ## Lemmas and theorems for claim C1 -/

lemma ytLoop_fst (T L : Nat) :
    ∀ d n c, L - n ≤ d → n ≤ T →
      (ytLoop T L (List.range n) n c).1 = List.range (max n (min L T)) := by
  intro d
  induction d with
  | zero =>
      intro n c hd hn
      rw [ytLoop]
      simp only [List.length_range]
      rw [dif_neg (by omega)]
      have hmax : max n (min L T) = n := by omega
      rw [hmax]
  | succ d IH =>
      intro n c hd hn
      rw [ytLoop]
      simp only [List.length_range]
      by_cases hl : n < L
      · rw [dif_pos hl]
        by_cases h2 : n + min (min 50 (L - n)) (T - n) < T
        · rw [dif_pos h2, ← List.range_add]
          rw [IH (n + min (min 50 (L - n)) (T - n)) (c + 1) (by omega) (by omega)]
          have hmax : max (n + min (min 50 (L - n)) (T - n)) (min L T) = max n (min L T) := by
            omega
          rw [hmax]
        · rw [dif_neg h2]
          show List.range n ++ (List.range _).map _ = _
          rw [← List.range_add]
          have : n + min (min 50 (L - n)) (T - n) = max n (min L T) := by omega
          rw [this]
      · rw [dif_neg hl]
        have hmax : max n (min L T) = n := by omega
        show List.range n = _
        rw [hmax]

lemma ytLoop_calls_le (T L : Nat) :
    ∀ d (acc : List Nat) pos c, L - acc.length ≤ d →
      (ytLoop T L acc pos c).2 ≤ c + (L - acc.length) ∧
      (ytLoop T L acc pos c).2 ≤ c + (T - pos) + 1 := by
  intro d
  induction d with
  | zero =>
      intro acc pos c hd
      rw [ytLoop, dif_neg (by omega)]
      exact ⟨show c ≤ _ from by omega, show c ≤ _ from by omega⟩
  | succ d IH =>
      intro acc pos c hd
      rw [ytLoop]
      by_cases hl : acc.length < L
      · rw [dif_pos hl]
        by_cases h2 : pos + min (min 50 (L - acc.length)) (T - pos) < T
        · rw [dif_pos h2]
          have hlen : (acc ++ (List.range (min (min 50 (L - acc.length)) (T - pos))).map
              (pos + ·)).length = acc.length + min (min 50 (L - acc.length)) (T - pos) := by
            simp
          have := IH (acc ++ (List.range (min (min 50 (L - acc.length)) (T - pos))).map (pos + ·))
            (pos + min (min 50 (L - acc.length)) (T - pos)) (c + 1) (by rw [hlen]; omega)
          rw [hlen] at this
          omega
        · rw [dif_neg h2]
          exact ⟨show c + 1 ≤ _ from by omega, show c + 1 ≤ _ from by omega⟩
      · rw [dif_neg hl]
        exact ⟨show c ≤ _ from by omega, show c ≤ _ from by omega⟩

/-- C1 helper: the youtube `getVideos` loop run with resolved limit `L`
returns exactly `min L T` items (as ids `0..min L T - 1`). -/
lemma ytRun_fst (T L : Nat) : (ytLoop T L [] 0 0).1 = List.range (min L T) := by
  have h := ytLoop_fst T L L 0 0 (by omega) (by omega)
  rw [List.range_zero] at h
  rw [h]
  have : max 0 (min L T) = min L T := by omega
  rw [this]

lemma ytLoop_calls_mono (T L : Nat) :
    ∀ d (acc : List Nat) pos c, L - acc.length ≤ d → c ≤ (ytLoop T L acc pos c).2 := by
  intro d
  induction d with
  | zero =>
      intro acc pos c hd
      rw [ytLoop, dif_neg (by omega)]
  | succ d IH =>
      intro acc pos c hd
      rw [ytLoop]
      by_cases hl : acc.length < L
      · rw [dif_pos hl]
        by_cases h2 : pos + min (min 50 (L - acc.length)) (T - pos) < T
        · rw [dif_pos h2]
          have hlen : (acc ++ (List.range (min (min 50 (L - acc.length)) (T - pos))).map
              (pos + ·)).length = acc.length + min (min 50 (L - acc.length)) (T - pos) := by
            simp
          have := IH (acc ++ (List.range (min (min 50 (L - acc.length)) (T - pos))).map (pos + ·))
            (pos + min (min 50 (L - acc.length)) (T - pos)) (c + 1) (by rw [hlen]; omega)
          omega
        · rw [dif_neg h2]
          exact Nat.le_succ c
      · rw [dif_neg hl]

/-- With a positive resolved limit the loop body runs: at least one page call. -/
lemma ytLoop_calls_pos (T L : Nat) (hL : 0 < L) : 1 ≤ (ytLoop T L [] 0 0).2 := by
  rw [ytLoop, dif_pos (by simpa using hL)]
  split
  · exact ytLoop_calls_mono T L L _ _ (0 + 1) (Nat.sub_le L _)
  · exact Nat.le_refl 1

lemma twLoop_fst (T L : Nat) :
    ∀ d n c, L - n ≤ d → n ≤ T →
      (twLoop T L (List.range n) n c).1 = List.range (max n (min L T)) := by
  intro d
  induction d with
  | zero =>
      intro n c hd hn
      rw [twLoop]
      simp only [List.length_range]
      rw [dif_neg (by omega)]
      have hmax : max n (min L T) = n := by omega
      rw [hmax]
  | succ d IH =>
      intro n c hd hn
      rw [twLoop]
      simp only [List.length_range]
      by_cases hl : n < L
      · rw [dif_pos hl]
        by_cases h0 : min (min 100 (L - n)) (T - n) = 0
        · rw [dif_pos h0]
          have hmax : max n (min L T) = n := by omega
          show List.range n = _
          rw [hmax]
        · rw [dif_neg h0]
          by_cases h2 : n + min (min 100 (L - n)) (T - n) < T
          · rw [dif_pos h2, ← List.range_add]
            rw [IH (n + min (min 100 (L - n)) (T - n)) (c + 1) (by omega) (by omega)]
            have hmax : max (n + min (min 100 (L - n)) (T - n)) (min L T) = max n (min L T) := by
              omega
            rw [hmax]
          · rw [dif_neg h2]
            show List.range n ++ (List.range _).map _ = _
            rw [← List.range_add]
            have : n + min (min 100 (L - n)) (T - n) = max n (min L T) := by omega
            rw [this]
      · rw [dif_neg hl]
        have hmax : max n (min L T) = n := by omega
        show List.range n = _
        rw [hmax]

lemma twLoop_calls_le (T L : Nat) :
    ∀ d (acc : List Nat) pos c, L - acc.length ≤ d →
      (twLoop T L acc pos c).2 ≤ c + (L - acc.length) ∧
      (twLoop T L acc pos c).2 ≤ c + (T - pos) + 1 := by
  intro d
  induction d with
  | zero =>
      intro acc pos c hd
      rw [twLoop, dif_neg (by omega)]
      exact ⟨show c ≤ _ from by omega, show c ≤ _ from by omega⟩
  | succ d IH =>
      intro acc pos c hd
      rw [twLoop]
      by_cases hl : acc.length < L
      · rw [dif_pos hl]
        by_cases h0 : min (min 100 (L - acc.length)) (T - pos) = 0
        · rw [dif_pos h0]
          exact ⟨show c + 1 ≤ _ from by omega, show c + 1 ≤ _ from by omega⟩
        · rw [dif_neg h0]
          by_cases h2 : pos + min (min 100 (L - acc.length)) (T - pos) < T
          · rw [dif_pos h2]
            have hlen : (acc ++ (List.range (min (min 100 (L - acc.length)) (T - pos))).map
                (pos + ·)).length = acc.length + min (min 100 (L - acc.length)) (T - pos) := by
              simp
            have := IH (acc ++ (List.range (min (min 100 (L - acc.length)) (T - pos))).map
                (pos + ·)) (pos + min (min 100 (L - acc.length)) (T - pos)) (c + 1)
                (by rw [hlen]; omega)
            rw [hlen] at this
            omega
          · rw [dif_neg h2]
            exact ⟨show c + 1 ≤ _ from by omega, show c + 1 ≤ _ from by omega⟩
      · rw [dif_neg hl]
        exact ⟨show c ≤ _ from by omega, show c ≤ _ from by omega⟩

lemma twRun_fst (T L : Nat) :
    (twLoop T L [] 0 0).1.take L = List.range (min L T) := by
  have h := twLoop_fst T L L 0 0 (by omega) (by omega)
  rw [List.range_zero] at h
  rw [h]
  have hmax : max 0 (min L T) = min L T := by omega
  rw [hmax]
  exact List.take_of_length_le (by simp)

lemma twLoop_calls_mono (T L : Nat) :
    ∀ d (acc : List Nat) pos c, L - acc.length ≤ d → c ≤ (twLoop T L acc pos c).2 := by
  intro d
  induction d with
  | zero =>
      intro acc pos c hd
      rw [twLoop, dif_neg (by omega)]
  | succ d IH =>
      intro acc pos c hd
      rw [twLoop]
      by_cases hl : acc.length < L
      · rw [dif_pos hl]
        by_cases h0 : min (min 100 (L - acc.length)) (T - pos) = 0
        · rw [dif_pos h0]
          exact Nat.le_succ c
        · rw [dif_neg h0]
          by_cases h2 : pos + min (min 100 (L - acc.length)) (T - pos) < T
          · rw [dif_pos h2]
            have hlen : (acc ++ (List.range (min (min 100 (L - acc.length)) (T - pos))).map
                (pos + ·)).length = acc.length + min (min 100 (L - acc.length)) (T - pos) := by
              simp
            have := IH (acc ++ (List.range (min (min 100 (L - acc.length)) (T - pos))).map
                (pos + ·)) (pos + min (min 100 (L - acc.length)) (T - pos)) (c + 1)
                (by rw [hlen]; omega)
            omega
          · rw [dif_neg h2]
            exact Nat.le_succ c
      · rw [dif_neg hl]

/-- With a positive resolved limit the loop body runs: at least one page call. -/
lemma twLoop_calls_pos (T L : Nat) (hL : 0 < L) : 1 ≤ (twLoop T L [] 0 0).2 := by
  rw [twLoop, dif_pos (by simpa using hL)]
  split
  · exact Nat.le_refl 1
  · split
    · exact twLoop_calls_mono T L L _ _ (0 + 1) (Nat.sub_le L _)
    · exact Nat.le_refl 1

/-- C1 counterexample: requesting limit `0` does **not** return an empty
collection without issuing any page call.  `0` is falsy in JS, so
youtube.js line 112 (`maxVideos || config.limits.youtube.maxVideos`) and
twitter.js line 94 (`maxTweets || config.limits.twitter.maxTweets`) resolve
the loop limit to the configured defaults (100 / 200): against a 5-item
source, both fetches issue a page call and return all 5 items. -/
theorem c1_zero_limit_counterexample :
    (getVideosMock 5 (some 0)).1.length = 5 ∧ 1 ≤ (getVideosMock 5 (some 0)).2 ∧
    (getUserTweetsMock 5 (some 0)).1.length = 5 ∧ 1 ≤ (getUserTweetsMock 5 (some 0)).2 := by
  have hyt : jsOrDefault (some 0) ytDefaultMaxVideos = 100 := rfl
  have htw : jsOrDefault (some 0) twDefaultMaxTweets = 200 := rfl
  refine ⟨?_, ?_, ?_, ?_⟩
  · rw [getVideosMock, hyt, ytRun_fst]
    simp
  · rw [getVideosMock, hyt]
    exact ytLoop_calls_pos 5 100 (by omega)
  · rw [getUserTweetsMock, htw]
    show ((twLoop 5 200 [] 0 0).1.take 200).length = 5
    rw [twRun_fst]
    simp
  · rw [getUserTweetsMock, htw]
    exact twLoop_calls_pos 5 200 (by omega)

/-- C1 (amended): for both paginated fetches (`YouTubeScraper.getVideos`,
`TwitterScraper.getUserTweets`) run against a mock source holding a fixed
total of `T` items: for every requested limit `L > 0`, `L > T` returns
exactly `T` items and `L < T` exactly `L` items, with at most
`min L (T + 1)` page calls (the loop terminates either by reaching the
requested limit or by cursor exhaustion).  A requested limit of `0` is falsy
in JS, so `maxVideos || config.limits.youtube.maxVideos` (youtube.js 112)
resp. `maxTweets || config.limits.twitter.maxTweets` (twitter.js 94) resolve
it — like an omitted limit — to the configured default (100 videos /
200 tweets): the fetch then returns `min default T` items and issues at
least one page call rather than returning an empty collection. -/
theorem c1_pagination_termination :
    ∀ T L : Nat,
      (0 < L →
        (getVideosMock T (some L)).1 = List.range (min L T) ∧
        (T < L → (getVideosMock T (some L)).1.length = T) ∧
        (L < T → (getVideosMock T (some L)).1.length = L) ∧
        (getVideosMock T (some L)).2 ≤ L ∧
        (getVideosMock T (some L)).2 ≤ T + 1 ∧
        (getUserTweetsMock T (some L)).1 = List.range (min L T) ∧
        (T < L → (getUserTweetsMock T (some L)).1.length = T) ∧
        (L < T → (getUserTweetsMock T (some L)).1.length = L) ∧
        (getUserTweetsMock T (some L)).2 ≤ L ∧
        (getUserTweetsMock T (some L)).2 ≤ T + 1) ∧
      ((getVideosMock T (some 0)).1 = List.range (min ytDefaultMaxVideos T) ∧
       (getVideosMock T none).1 = List.range (min ytDefaultMaxVideos T) ∧
       1 ≤ (getVideosMock T (some 0)).2 ∧
       (getUserTweetsMock T (some 0)).1 = List.range (min twDefaultMaxTweets T) ∧
       (getUserTweetsMock T none).1 = List.range (min twDefaultMaxTweets T) ∧
       1 ≤ (getUserTweetsMock T (some 0)).2) := by
  intro T L
  constructor
  · intro hL
    have hres : jsOrDefault (some L) ytDefaultMaxVideos = L := by
      simp only [jsOrDefault]
      rw [if_neg (by omega)]
    have hres' : jsOrDefault (some L) twDefaultMaxTweets = L := by
      simp only [jsOrDefault]
      rw [if_neg (by omega)]
    have hytc := ytLoop_calls_le T L L [] 0 0 (by simp)
    have htwc := twLoop_calls_le T L L [] 0 0 (by simp)
    rw [getVideosMock, getUserTweetsMock, hres, hres']
    refine ⟨ytRun_fst T L, ?_, ?_, ?_, ?_, twRun_fst T L, ?_, ?_, ?_, ?_⟩
    · intro h; rw [ytRun_fst]; simp only [List.length_range]; omega
    · intro h; rw [ytRun_fst]; simp only [List.length_range]; omega
    · simpa using hytc.1
    · simpa using hytc.2
    · intro h
      show ((twLoop T L [] 0 0).1.take L).length = T
      rw [twRun_fst]
      simp only [List.length_range]
      omega
    · intro h
      show ((twLoop T L [] 0 0).1.take L).length = L
      rw [twRun_fst]
      simp only [List.length_range]
      omega
    · show (twLoop T L [] 0 0).2 ≤ L
      simpa using htwc.1
    · show (twLoop T L [] 0 0).2 ≤ T + 1
      simpa using htwc.2
  · have hyt0 : jsOrDefault (some 0) ytDefaultMaxVideos = ytDefaultMaxVideos := rfl
    have hytn : jsOrDefault none ytDefaultMaxVideos = ytDefaultMaxVideos := rfl
    have htw0 : jsOrDefault (some 0) twDefaultMaxTweets = twDefaultMaxTweets := rfl
    have htwn : jsOrDefault none twDefaultMaxTweets = twDefaultMaxTweets := rfl
    refine ⟨?_, ?_, ?_, ?_, ?_, ?_⟩
    · rw [getVideosMock, hyt0]
      exact ytRun_fst T ytDefaultMaxVideos
    · rw [getVideosMock, hytn]
      exact ytRun_fst T ytDefaultMaxVideos
    · rw [getVideosMock, hyt0]
      exact ytLoop_calls_pos T ytDefaultMaxVideos (by decide)
    · rw [getUserTweetsMock, htw0]
      exact twRun_fst T twDefaultMaxTweets
    · rw [getUserTweetsMock, htwn]
      exact twRun_fst T twDefaultMaxTweets
    · rw [getUserTweetsMock, htw0]
      exact twLoop_calls_pos T twDefaultMaxTweets (by decide)

/-- Witness for C1 (amended) at concrete inputs `T = 3, L = 10` and
`T = 10, L = 4`. -/
theorem c1_pagination_termination_witness :
    (getVideosMock 3 (some 10)).1.length = 3 ∧
    (getVideosMock 10 (some 4)).1.length = 4 ∧
    (getUserTweetsMock 3 (some 10)).1.length = 3 ∧
    (getUserTweetsMock 10 (some 4)).1.length = 4 :=
  ⟨((c1_pagination_termination 3 10).1 (by decide)).2.1 (by decide),
   ((c1_pagination_termination 10 4).1 (by decide)).2.2.1 (by decide),
   ((c1_pagination_termination 3 10).1 (by decide)).2.2.2.2.2.2.1 (by decide),
   ((c1_pagination_termination 10 4).1 (by decide)).2.2.2.2.2.2.2.1 (by decide)⟩

/-! ## Lemmas and theorem for claim C2 (rate-limited queue, spec-modelled) -/

lemma rlSched_start_ge (d : Nat) :
    ∀ (ds : List Nat) (t : Nat), ∀ sd ∈ rlSched d t ds, t ≤ sd.1 := by
  intro ds
  induction ds with
  | nil => intro t sd hsd; simp [rlSched] at hsd
  | cons dur rest IH =>
      intro t sd hsd
      rw [rlSched] at hsd
      rcases List.mem_cons.1 hsd with h | h
      · rw [h]
      · exact le_trans (by omega) (IH (t + max d dur) sd h)

lemma rlSched_map_snd (d : Nat) :
    ∀ (ds : List Nat) (t : Nat), (rlSched d t ds).map Prod.snd = ds := by
  intro ds
  induction ds with
  | nil => intro t; rfl
  | cons dur rest IH => intro t; simp [rlSched, IH]

lemma rlSched_pairwise (d : Nat) :
    ∀ (ds : List Nat) (t : Nat),
      List.Pairwise (fun a b : Nat × Nat => a.1 ≤ b.1 ∧ a.1 + d ≤ b.1 ∧ a.1 + a.2 ≤ b.1)
        (rlSched d t ds) := by
  intro ds
  induction ds with
  | nil => intro t; simp [rlSched]
  | cons dur rest IH =>
      intro t
      rw [rlSched, List.pairwise_cons]
      refine ⟨?_, IH (t + max d dur)⟩
      intro b hb
      have hge := rlSched_start_ge d rest (t + max d dur) b hb
      refine ⟨by omega, by omega, by omega⟩

lemma rlRunning_le_one (d : Nat) :
    ∀ (ds : List Nat) (t0 t : Nat), rlRunning (rlSched d t0 ds) t ≤ 1 := by
  intro ds
  induction ds with
  | nil => intro t0 t; simp [rlSched, rlRunning]
  | cons dur rest IH =>
      intro t0 t
      rw [rlSched, rlRunning, List.countP_cons]
      by_cases hrun : t0 ≤ t ∧ t < t0 + dur
      · have hzero : (rlSched d (t0 + max d dur) rest).countP
            (fun sd => decide (sd.1 ≤ t) && decide (t < sd.1 + sd.2)) = 0 := by
          rw [List.countP_eq_zero]
          intro sd hsd
          have hge := rlSched_start_ge d rest (t0 + max d dur) sd hsd
          simp only [Bool.and_eq_true, decide_eq_true_eq, not_and]
          intro hle
          omega
        rw [hzero]
        simp only [Nat.zero_add]
        split <;> omega
      · have hfalse :
            (decide ((t0, dur).1 ≤ t) && decide (t < (t0, dur).1 + (t0, dur).2)) = false := by
          simp only [Bool.and_eq_false_iff, decide_eq_false_iff_not]
          omega
        rw [hfalse]
        simpa [rlRunning] using IH (t0 + max d dur) t

/-- C2: the rate-limited queue as configured by the Instagram fetcher
(`concurrency = 1`, `delay = 3000` ms): tasks run in submission order (the
schedule's durations are the submitted durations in order), start times are
non-decreasing with consecutive dispatches at least the configured interval
apart, every task starts only after the previous one finished, and at no
instant does more than `concurrency = 1` task run. -/
theorem c2_rate_limited_queue :
    ∀ durations : List Nat,
      (rlSched instagramRL.delay 0 durations).map Prod.snd = durations ∧
      List.Pairwise
        (fun a b : Nat × Nat =>
          a.1 ≤ b.1 ∧ a.1 + instagramRL.delay ≤ b.1 ∧ a.1 + a.2 ≤ b.1)
        (rlSched instagramRL.delay 0 durations) ∧
      ∀ t, rlRunning (rlSched instagramRL.delay 0 durations) t ≤ instagramRL.concurrency :=
  fun durations =>
    ⟨rlSched_map_snd _ durations 0, rlSched_pairwise _ durations 0,
     fun t => rlRunning_le_one _ durations 0 t⟩

/-! ## Lemmas and theorems for claim C3 (per-platform failure isolation) -/

lemma scrapePersonaEntries_length {α : Type} (fetch : String → String → Except String α) :
    ∀ platforms, (scrapePersonaEntries fetch platforms).length
      = (platforms.filter (fun q => !(q.2 == ""))).length := by
  intro platforms
  induction platforms with
  | nil => rfl
  | cons ph rest IH =>
      rw [scrapePersonaEntries, List.flatMap_cons, List.length_append]
      rw [scrapePersonaEntries] at IH
      by_cases hp : ph.2 = ""
      · rw [if_pos hp, List.filter_cons_of_neg (by simp [hp]), IH]
        simp
      · rw [if_neg hp, List.filter_cons_of_pos (by simp [hp]), IH]
        simp only [List.length_singleton, List.length_cons, List.length_nil]
        omega

/-- C3 counterexample: a platform fetcher throwing an error whose message is
the empty string is recorded with an **empty** `error` field, so the entry's
error field is not a non-empty message string as claimed. -/
theorem c3_empty_error_message_counterexample :
    scrapePersonaEntries (fun _ _ => (Except.error "" : Except String Nat))
        [("twitter", "handle")]
      = [("twitter", PlatformEntry.err "")] ∧ ("" : String).length = 0 :=
  ⟨rfl, rfl⟩

/-- C3 (amended): `scrapePersona` records each failing platform as an entry
whose error field equals the thrown error's message verbatim, records each
succeeding platform's data (no error marker), and processes every platform
with a non-empty handle regardless of other platforms' failures — the
orchestration loop completes without throwing. -/
theorem c3_partial_failure_isolation {α : Type} :
    ∀ (fetch : String → String → Except String α) (platforms : List (String × String))
      (p h : String), (p, h) ∈ platforms → h ≠ "" →
      (∀ m, fetch p h = .error m →
        (p, PlatformEntry.err m) ∈ scrapePersonaEntries fetch platforms) ∧
      (∀ a, fetch p h = .ok a →
        (p, PlatformEntry.ok a) ∈ scrapePersonaEntries fetch platforms) ∧
      (scrapePersonaEntries fetch platforms).length
        = (platforms.filter (fun q => !(q.2 == ""))).length := by
  intro fetch platforms p h hmem hne
  refine ⟨?_, ?_, scrapePersonaEntries_length fetch platforms⟩
  · intro m hm
    rw [scrapePersonaEntries]
    refine List.mem_flatMap.2 ⟨(p, h), hmem, ?_⟩
    simp only [if_neg hne, hm]
    simp
  · intro a ha
    rw [scrapePersonaEntries]
    refine List.mem_flatMap.2 ⟨(p, h), hmem, ?_⟩
    simp only [if_neg hne, ha]
    simp

/-- Witness for C3 (amended) on a two-platform run where the twitter fetcher
throws and the youtube fetcher succeeds. -/
theorem c3_partial_failure_isolation_witness :
    ("twitter", PlatformEntry.err "network down") ∈
      scrapePersonaEntries
        (fun p _ => if p = "youtube" then Except.ok 0 else Except.error "network down")
        [("youtube", "alice"), ("twitter", "bob")] ∧
    ("youtube", PlatformEntry.ok 0) ∈
      scrapePersonaEntries
        (fun p _ => if p = "youtube" then Except.ok 0 else Except.error "network down")
        [("youtube", "alice"), ("twitter", "bob")] :=
  ⟨(c3_partial_failure_isolation
      (fun p _ => if p = "youtube" then Except.ok 0 else Except.error "network down")
      [("youtube", "alice"), ("twitter", "bob")] "twitter" "bob"
      (by simp) (by decide)).1 "network down" (by rfl),
   (c3_partial_failure_isolation
      (fun p _ => if p = "youtube" then Except.ok 0 else Except.error "network down")
      [("youtube", "alice"), ("twitter", "bob")] "youtube" "alice"
      (by simp) (by decide)).2.1 0 (by rfl)⟩

/-! ## Lemmas and theorem for claim C4 (nested-detail degradation) -/

lemma attachComments_getElem?_lt (videos : List MockVideo)
    (fetch : String → Except String (List String)) (i : Nat)
    (hi : i < min 10 videos.length) :
    (attachComments videos fetch)[i]?
      = videos[i]?.map
          (fun v => { v with comments := getVideoCommentsSafe (fetch v.vid) }) := by
  rw [attachComments, List.getElem?_append_left
    (by simp only [List.length_map, List.length_take]; omega)]
  rw [List.getElem?_map, List.getElem?_take_of_lt (by omega)]

lemma attachComments_getElem?_ge (videos : List MockVideo)
    (fetch : String → Except String (List String)) (i : Nat)
    (hi : min 10 videos.length ≤ i) :
    (attachComments videos fetch)[i]? = videos[i]? := by
  rw [attachComments, List.getElem?_append_right
    (by simp only [List.length_map, List.length_take]; omega)]
  rw [List.getElem?_drop]
  have hlen : (List.map (fun v => { v with comments := getVideoCommentsSafe (fetch v.vid) })
      (videos.take (min 10 videos.length))).length = min 10 videos.length := by
    simp only [List.length_map, List.length_take]
    omega
  rw [hlen]
  congr 1
  omega

/-- C4: with nested detail enabled, a failing nested comment fetch for a
primary item degrades to an empty comment list for that item, a succeeding
fetch attaches its comments, items beyond the first `min 10 n` prefix are
untouched, and the overall result always contains all primary items (same
length, same video ids, no error propagated). -/
theorem c4_nested_detail_degradation :
    ∀ (videos : List MockVideo) (fetch : String → Except String (List String)),
      (attachComments videos fetch).length = videos.length ∧
      (∀ i : Nat, (attachComments videos fetch)[i]?.map MockVideo.vid
          = videos[i]?.map MockVideo.vid) ∧
      (∀ (i : Nat) (v : MockVideo), i < 10 → videos[i]? = some v →
        ∀ e, fetch v.vid = Except.error e →
          (attachComments videos fetch)[i]? = some { v with comments := [] }) ∧
      (∀ (i : Nat) (v : MockVideo) (cs : List String), i < 10 → videos[i]? = some v →
        fetch v.vid = Except.ok cs →
          (attachComments videos fetch)[i]? = some { v with comments := cs }) ∧
      (∀ (i : Nat) (v : MockVideo), 10 ≤ i → videos[i]? = some v →
        (attachComments videos fetch)[i]? = some v) := by
  intro videos fetch
  refine ⟨?_, ?_, ?_, ?_, ?_⟩
  · rw [attachComments]
    simp only [List.length_append, List.length_map, List.length_take, List.length_drop]
    omega
  · intro i
    by_cases hi : i < min 10 videos.length
    · rw [attachComments_getElem?_lt videos fetch i hi, Option.map_map]
      rfl
    · rw [attachComments_getElem?_ge videos fetch i (by omega)]
  · intro i v hi hv e he
    have hlen : i < videos.length := (List.getElem?_eq_some_iff.1 hv).1
    rw [attachComments_getElem?_lt videos fetch i (by omega), hv]
    simp only [Option.map_some']
    rw [he]
    rfl
  · intro i v cs hi hv hcs
    have hlen : i < videos.length := (List.getElem?_eq_some_iff.1 hv).1
    rw [attachComments_getElem?_lt videos fetch i (by omega), hv]
    simp only [Option.map_some']
    rw [hcs]
    rfl
  · intro i v hi hv
    rw [attachComments_getElem?_ge videos fetch i (by omega), hv]

/-- Witness for C4: two videos; the comment fetch for the first throws and
degrades to `[]`, the second succeeds and keeps its comments. -/
theorem c4_nested_detail_degradation_witness :
    (attachComments [⟨"a", []⟩, ⟨"b", []⟩]
        (fun s => if s = "a" then Except.error "comments disabled" else Except.ok ["hi"]))[0]?
      = some ⟨"a", []⟩ ∧
    (attachComments [⟨"a", []⟩, ⟨"b", []⟩]
        (fun s => if s = "a" then Except.error "comments disabled" else Except.ok ["hi"]))[1]?
      = some ⟨"b", ["hi"]⟩ :=
  ⟨(c4_nested_detail_degradation [⟨"a", []⟩, ⟨"b", []⟩]
      (fun s => if s = "a" then Except.error "comments disabled" else Except.ok ["hi"])).2.2.1
      0 ⟨"a", []⟩ (by decide) rfl "comments disabled" (by rfl),
   (c4_nested_detail_degradation [⟨"a", []⟩, ⟨"b", []⟩]
      (fun s => if s = "a" then Except.error "comments disabled" else Except.ok ["hi"])).2.2.2.1
      1 ⟨"b", []⟩ ["hi"] (by decide) rfl (by rfl)⟩

/-! ## Text tokenization (dataOrganizer.js)

`extractCommonPhrases` tokenizes with `text.toLowerCase().split(/\s+/)`;
`extractSentencesContaining` splits with `text.split(/[.!?]+/)`.  JS
`String.prototype.split` on a one-or-more character-class regex cuts the
string at every maximal run of matching characters, producing an empty
leading (resp. trailing) piece when the string starts (resp. ends) with such
a run, and `[whole string]` when there is no match. -/

/-- JS `\s` (ASCII part plus the common Unicode space characters). -/
def jsIsWs (c : Char) : Bool :=
  c = ' ' || c = '\t' || c = '\n' || c = '\r' || c = '\x0b' || c = '\x0c' ||
  c = ' ' || c = ' ' || (0x2000 ≤ c.toNat && c.toNat ≤ 0x200a) ||
  c = ' ' || c = ' ' || c = ' ' || c = ' ' || c = '　' ||
  c = '﻿'

/-- Sentence-splitting class of `/[.!?]+/`. -/
def jsIsSentenceEnd (c : Char) : Bool := c = '.' || c = '!' || c = '?'

/-- Auxiliary splitter: `cur` holds the (reversed) piece read so far;
`skipping` records being inside a separator run whose piece was already
emitted (so a maximal run produces a single cut). -/
def splitRunsGo (p : Char → Bool) : List Char → Bool → List Char → List (List Char)
  | [], skipping, cur => if skipping then [[]] else [cur.reverse]
  | c :: cs, skipping, cur =>
      if p c then
        if skipping then splitRunsGo p cs true []
        else cur.reverse :: splitRunsGo p cs true []
      else splitRunsGo p cs false (c :: cur)

/-- JS `split` on a one-or-more character-class regex. -/
def jsSplitRuns (p : Char → Bool) (s : List Char) : List (List Char) :=
  splitRunsGo p s false []

/-- dataOrganizer.js line 865: `const words = text.toLowerCase().split(/\s+/)`
(lower-casing applied per character). -/
def wordsOf (text : String) : List String :=
  (jsSplitRuns jsIsWs (text.data.map Char.toLower)).map (fun l => String.mk l)

/-- dataOrganizer.js line 870: `words.slice(i, i + len).join(' ')`. -/
def phraseAt (words : List String) (i n : Nat) : String :=
  " ".intercalate ((words.drop i).take n)

/-- All sliding-window n-grams for `n` in `[2,5]`, in the loop's encounter
order (`for len in 2..5`, inner `for i in 0..words.length - len`). -/
def ngramWindows (words : List String) : List String :=
  [2, 3, 4, 5].flatMap (fun n =>
    (List.range (words.length + 1 - n)).map (fun i => phraseAt words i n))

/-- dataOrganizer.js line 871: `phrase.length > 10 && phrase.length < 50`. -/
def lengthOkPhrase (p : String) : Bool :=
  decide (10 < p.length) && decide (p.length < 50)

/-- The phrases actually inserted into the frequency map, in encounter order. -/
def phraseCandidates (text : String) : List String :=
  (ngramWindows (wordsOf text)).filter lengthOkPhrase

/-- Number of occurrences of `p` as an n-gram window of the text. -/
def windowCount (text : String) (p : String) : Nat :=
  (ngramWindows (wordsOf text)).count p

/-- dataOrganizer.js line 872: `phraseCounts[phrase] = (phraseCounts[phrase]
|| 0) + 1` on a plain object — an insertion-ordered string-keyed map. -/
def bumpCount (m : List (String × Nat)) (p : String) : List (String × Nat) :=
  match m with
  | [] => [(p, 1)]
  | q :: rest => if q.1 = p then (q.1, q.2 + 1) :: rest else q :: bumpCount rest p

/-- The frequency map after processing the whole text, in key-insertion order
(as `Object.entries` enumerates it). -/
def phraseCountsList (text : String) : List (String × Nat) :=
  (phraseCandidates text).foldl bumpCount []

/-- dataOrganizer.js line 879: `.filter(([_, count]) => count >= 3)`. -/
def eligiblePhrases (text : String) : List (String × Nat) :=
  (phraseCountsList text).filter (fun pc => decide (3 ≤ pc.2))

/-- The sort order of `.sort((a, b) => b[1] - a[1])`: descending frequency. -/
def countGE (a b : String × Nat) : Prop := b.2 ≤ a.2

instance : DecidableRel countGE := fun a b => Nat.decLe b.2 a.2

instance : IsTotal (String × Nat) countGE := ⟨fun a b => Nat.le_total b.2 a.2⟩

instance : IsTrans (String × Nat) countGE := ⟨fun _ _ _ hab hbc => Nat.le_trans hbc hab⟩

/-- dataOrganizer.js lines 861-887, `extractCommonPhrases`: count n-grams,
keep those with frequency ≥ 3, sort by descending frequency (JS sort is
stable, matched here by a stable insertion sort) and take the top 20.
Entries are (phrase, frequency) pairs. -/
def extractCommonPhrases (text : String) : List (String × Nat) :=
  (List.insertionSort countGE (eligiblePhrases text)).take 20

/-! ## Lemmas about the phrase-frequency map -/

lemma keys_bumpCount (p : String) :
    ∀ m : List (String × Nat), (bumpCount m p).map Prod.fst =
      if p ∈ m.map Prod.fst then m.map Prod.fst else m.map Prod.fst ++ [p] := by
  intro m
  induction m with
  | nil => simp [bumpCount]
  | cons q rest IH =>
      simp only [bumpCount]
      by_cases h : q.1 = p
      · rw [if_pos h]
        simp [h]
      · rw [if_neg h]
        simp only [List.map_cons, IH]
        by_cases hp : p ∈ rest.map Prod.fst
        · rw [if_pos hp, if_pos (by simp [hp])]
        · rw [if_neg hp, if_neg (by simp [hp]; exact fun hqp => h hqp.symm)]
          simp

lemma mem_keys_bumpCount (p : String) (m : List (String × Nat)) :
    p ∈ (bumpCount m p).map Prod.fst := by
  rw [keys_bumpCount]
  by_cases hp : p ∈ m.map Prod.fst
  · rwa [if_pos hp]
  · rw [if_neg hp]
    simp

lemma keys_subset_bumpCount (p : String) (m : List (String × Nat)) :
    ∀ q, q ∈ m.map Prod.fst → q ∈ (bumpCount m p).map Prod.fst := by
  intro q hq
  rw [keys_bumpCount]
  by_cases hp : p ∈ m.map Prod.fst
  · rwa [if_pos hp]
  · rw [if_neg hp]
    exact List.mem_append_left _ hq

lemma keys_nodup_bumpCount (p : String) (m : List (String × Nat))
    (hm : (m.map Prod.fst).Nodup) : ((bumpCount m p).map Prod.fst).Nodup := by
  rw [keys_bumpCount]
  by_cases hp : p ∈ m.map Prod.fst
  · rwa [if_pos hp]
  · rw [if_neg hp]
    simp only [List.nodup_append, List.nodup_singleton]
    exact ⟨hm, trivial, by simp [hp]⟩

lemma keys_nodup_foldl_bumpCount :
    ∀ (l : List String) (acc : List (String × Nat)),
      (acc.map Prod.fst).Nodup → ((l.foldl bumpCount acc).map Prod.fst).Nodup := by
  intro l
  induction l with
  | nil => intro acc hacc; simpa using hacc
  | cons x xs IH =>
      intro acc hacc
      rw [List.foldl_cons]
      exact IH (bumpCount acc x) (keys_nodup_bumpCount x acc hacc)

lemma key_mem_of_mem_foldl_bumpCount :
    ∀ (l : List String) (acc : List (String × Nat)) (x : String × Nat),
      x ∈ l.foldl bumpCount acc → x.1 ∈ acc.map Prod.fst ∨ x.1 ∈ l := by
  intro l
  induction l with
  | nil => intro acc x hx; left; exact List.mem_map_of_mem Prod.fst hx
  | cons y ys IH =>
      intro acc x hx
      rw [List.foldl_cons] at hx
      rcases IH (bumpCount acc y) x hx with h | h
      · rw [keys_bumpCount] at h
        by_cases hy : y ∈ acc.map Prod.fst
        · rw [if_pos hy] at h
          exact Or.inl h
        · rw [if_neg hy] at h
          rcases List.mem_append.1 h with h' | h'
          · exact Or.inl h'
          · right
            simp only [List.mem_singleton] at h'
            simp [h']
      · right
        simp [h]

lemma key_mem_foldl_bumpCount_of_mem :
    ∀ (l : List String) (acc : List (String × Nat)) (p : String),
      (p ∈ l ∨ p ∈ acc.map Prod.fst) → p ∈ (l.foldl bumpCount acc).map Prod.fst := by
  intro l
  induction l with
  | nil =>
      intro acc p hp
      rcases hp with hp | hp
      · simp at hp
      · simpa using hp
  | cons y ys IH =>
      intro acc p hp
      rw [List.foldl_cons]
      rcases hp with hp | hp
      · rcases List.mem_cons.1 hp with h | h
        · exact IH (bumpCount acc y) p (Or.inr (h ▸ mem_keys_bumpCount y acc))
        · exact IH (bumpCount acc y) p (Or.inl h)
      · exact IH (bumpCount acc y) p (Or.inr (keys_subset_bumpCount y acc p hp))

/-- The value stored under a key in the frequency map (0 when absent). -/
def lookupCount : List (String × Nat) → String → Nat
  | [], _ => 0
  | q :: rest, p => if q.1 = p then q.2 else lookupCount rest p

lemma lookupCount_bumpCount_self (p : String) :
    ∀ m : List (String × Nat), lookupCount (bumpCount m p) p = lookupCount m p + 1 := by
  intro m
  induction m with
  | nil => simp [bumpCount, lookupCount]
  | cons q rest IH =>
      simp only [bumpCount]
      by_cases h : q.1 = p
      · rw [if_pos h]
        simp [lookupCount, h]
      · rw [if_neg h]
        simp [lookupCount, h, IH]

lemma lookupCount_bumpCount_other (p q : String) (hne : q ≠ p) :
    ∀ m : List (String × Nat), lookupCount (bumpCount m p) q = lookupCount m q := by
  intro m
  induction m with
  | nil =>
      have hpq : ¬ p = q := fun h => hne h.symm
      simp [bumpCount, lookupCount, hpq]
  | cons r rest IH =>
      simp only [bumpCount]
      by_cases h : r.1 = p
      · rw [if_pos h]
        have hr : ¬ r.1 = q := fun hq => hne (by rw [← hq, h])
        simp [lookupCount, hr]
      · rw [if_neg h]
        by_cases hr : r.1 = q
        · simp [lookupCount, hr]
        · simp [lookupCount, hr, IH]

lemma lookupCount_foldl_bumpCount :
    ∀ (l : List String) (acc : List (String × Nat)) (q : String),
      lookupCount (l.foldl bumpCount acc) q = lookupCount acc q + l.count q := by
  intro l
  induction l with
  | nil => intro acc q; simp
  | cons x xs IH =>
      intro acc q
      rw [List.foldl_cons, IH (bumpCount acc x) q]
      by_cases h : q = x
      · rw [h, lookupCount_bumpCount_self x acc]
        simp [List.count_cons]
        omega
      · rw [lookupCount_bumpCount_other x q h acc]
        simp [List.count_cons, h]

lemma lookupCount_of_mem :
    ∀ (m : List (String × Nat)), ((m.map Prod.fst).Nodup) →
      ∀ x ∈ m, lookupCount m x.1 = x.2 := by
  intro m
  induction m with
  | nil => intro _ x hx; simp at hx
  | cons q rest IH =>
      intro hnd x hx
      simp only [List.map_cons, List.nodup_cons] at hnd
      rcases List.mem_cons.1 hx with h | h
      · rw [h]
        simp [lookupCount]
      · have hq : ¬ q.1 = x.1 := by
          intro he
          exact hnd.1 (he ▸ List.mem_map_of_mem Prod.fst h)
        simp only [lookupCount, if_neg hq]
        exact IH hnd.2 x h

/-! ## Stability of the descending-frequency sort -/

lemma filter_orderedInsert_eq (x : String × Nat) :
    ∀ m : List (String × Nat),
      (m.orderedInsert countGE x).filter (fun z => z.2 == x.2)
        = x :: m.filter (fun z => z.2 == x.2) := by
  intro m
  induction m with
  | nil => simp [List.orderedInsert]
  | cons b bs IH =>
      simp only [List.orderedInsert]
      by_cases h : countGE x b
      · rw [if_pos h]
        simp
      · rw [if_neg h]
        have hb : (b.2 == x.2) = false := by
          simp only [countGE] at h
          simp only [beq_eq_false_iff_ne]
          omega
        simp [hb, IH]

lemma filter_orderedInsert_ne (x : String × Nat) (c : Nat) (hc : ¬ x.2 = c) :
    ∀ m : List (String × Nat),
      (m.orderedInsert countGE x).filter (fun z => z.2 == c)
        = m.filter (fun z => z.2 == c) := by
  intro m
  induction m with
  | nil => simp [List.orderedInsert, hc]
  | cons b bs IH =>
      simp only [List.orderedInsert]
      by_cases h : countGE x b
      · rw [if_pos h]
        have hx : (x.2 == c) = false := by
          simp only [beq_eq_false_iff_ne]
          exact hc
        simp [hx]
      · rw [if_neg h]
        simp only [List.filter_cons, IH]

lemma filter_insertionSort_count (c : Nat) :
    ∀ l : List (String × Nat),
      (List.insertionSort countGE l).filter (fun z => z.2 == c)
        = l.filter (fun z => z.2 == c) := by
  intro l
  induction l with
  | nil => rfl
  | cons x xs IH =>
      simp only [List.insertionSort]
      by_cases h : x.2 = c
      · subst h
        rw [filter_orderedInsert_eq x (List.insertionSort countGE xs), IH]
        simp
      · rw [filter_orderedInsert_ne x c h (List.insertionSort countGE xs), IH]
        have hx : (x.2 == c) = false := by
          simp only [beq_eq_false_iff_ne]
          exact h
        simp [hx]

/-! ## Theorems for claims C6 and C7 -/

lemma mem_extractCommonPhrases (text : String) (pc : String × Nat)
    (hpc : pc ∈ extractCommonPhrases text) :
    3 ≤ pc.2 ∧ pc.1 ∈ phraseCandidates text ∧
      pc.2 = (phraseCandidates text).count pc.1 := by
  have h1 : pc ∈ List.insertionSort countGE (eligiblePhrases text) :=
    List.mem_of_mem_take hpc
  have h2 : pc ∈ eligiblePhrases text :=
    (List.perm_insertionSort countGE (eligiblePhrases text)).mem_iff.1 h1
  obtain ⟨h3, h4⟩ := List.mem_filter.1 h2
  have hnd : ((phraseCountsList text).map Prod.fst).Nodup :=
    keys_nodup_foldl_bumpCount (phraseCandidates text) [] (by simp)
  have hlook : lookupCount (phraseCountsList text) pc.1 = pc.2 :=
    lookupCount_of_mem (phraseCountsList text) hnd pc h3
  have hcount : lookupCount (phraseCountsList text) pc.1
      = (phraseCandidates text).count pc.1 := by
    rw [phraseCountsList, lookupCount_foldl_bumpCount (phraseCandidates text) [] pc.1]
    simp [lookupCount]
  refine ⟨by simpa using h4, ?_, by omega⟩
  rcases key_mem_of_mem_foldl_bumpCount (phraseCandidates text) [] pc h3 with h | h
  · simp at h
  · exact h

lemma mem_ngramWindows_shape (words : List String) (p : String)
    (hp : p ∈ ngramWindows words) :
    ∃ n i : Nat, 2 ≤ n ∧ n ≤ 5 ∧ i + n ≤ words.length ∧ p = phraseAt words i n := by
  rw [ngramWindows] at hp
  obtain ⟨n, hn, hp⟩ := List.mem_flatMap.1 hp
  obtain ⟨i, hi, hip⟩ := List.mem_map.1 hp
  have hirange := List.mem_range.1 hi
  have hn' : n = 2 ∨ n = 3 ∨ n = 4 ∨ n = 5 := by simpa using hn
  exact ⟨n, i, by omega, by omega, by omega, hip.symm⟩

/-- C6 (amended): `extractCommonPhrases` returns only sliding-window n-gram
phrases with `n ∈ [2,5]`, character length in `[10,50]` (in fact strictly
between 10 and 50) and occurrence count at least 3, ordered by descending
frequency and truncated to the top 20; a phrase occurring exactly 2 times
never appears in the output, and a phrase occurring exactly 3 times appears
provided its character length is strictly between 10 and 50 and at most 20
phrases meet the frequency-and-length thresholds. -/
theorem c6_phrase_extraction :
    ∀ text : String,
      (∀ pc ∈ extractCommonPhrases text,
        3 ≤ pc.2 ∧ 10 ≤ pc.1.length ∧ pc.1.length ≤ 50 ∧
        ∃ n i : Nat, 2 ≤ n ∧ n ≤ 5 ∧ i + n ≤ (wordsOf text).length ∧
          pc.1 = phraseAt (wordsOf text) i n) ∧
      List.Pairwise countGE (extractCommonPhrases text) ∧
      (extractCommonPhrases text).length ≤ 20 ∧
      (∀ p : String, windowCount text p = 2 →
        p ∉ (extractCommonPhrases text).map Prod.fst) ∧
      (∀ p : String, windowCount text p = 3 → 10 < p.length → p.length < 50 →
        (eligiblePhrases text).length ≤ 20 →
        p ∈ (extractCommonPhrases text).map Prod.fst) := by
  intro text
  refine ⟨?_, ?_, ?_, ?_, ?_⟩
  · intro pc hpc
    obtain ⟨h3, hcand, _⟩ := mem_extractCommonPhrases text pc hpc
    obtain ⟨hw, hlen⟩ := List.mem_filter.1 hcand
    have hlen' : 10 < pc.1.length ∧ pc.1.length < 50 := by
      simpa [lengthOkPhrase] using hlen
    obtain ⟨n, i, hn2, hn5, hni, hshape⟩ := mem_ngramWindows_shape (wordsOf text) pc.1 hw
    exact ⟨h3, by omega, by omega, n, i, hn2, hn5, hni, hshape⟩
  · exact List.Pairwise.sublist (List.take_sublist 20 _)
      (List.sorted_insertionSort countGE (eligiblePhrases text))
  · exact List.length_take_le 20 _
  · intro p h2 hmem
    obtain ⟨pc, hpc, hfst⟩ := List.mem_map.1 hmem
    obtain ⟨h3, hcand, hcount⟩ := mem_extractCommonPhrases text pc hpc
    obtain ⟨hw, hlenok⟩ := List.mem_filter.1 hcand
    rw [phraseCandidates, List.count_filter hlenok, hfst] at hcount
    rw [← windowCount] at hcount
    omega
  · intro p h3 hl10 hl50 hsmall
    have hlenok : lengthOkPhrase p = true := by
      simp [lengthOkPhrase, hl10, hl50]
    have hwmem : p ∈ ngramWindows (wordsOf text) := by
      have : 0 < (ngramWindows (wordsOf text)).count p := by
        rw [← windowCount] at *
        omega
      exact List.count_pos_iff.1 this
    have hcand : p ∈ phraseCandidates text :=
      List.mem_filter.2 ⟨hwmem, hlenok⟩
    have hkey : p ∈ (phraseCountsList text).map Prod.fst :=
      key_mem_foldl_bumpCount_of_mem (phraseCandidates text) [] p (Or.inl hcand)
    obtain ⟨pc, hpc, hfst⟩ := List.mem_map.1 hkey
    have hnd : ((phraseCountsList text).map Prod.fst).Nodup :=
      keys_nodup_foldl_bumpCount (phraseCandidates text) [] (by simp)
    have hlook : lookupCount (phraseCountsList text) pc.1 = pc.2 :=
      lookupCount_of_mem (phraseCountsList text) hnd pc hpc
    have hcount : lookupCount (phraseCountsList text) pc.1
        = (phraseCandidates text).count pc.1 := by
      rw [phraseCountsList, lookupCount_foldl_bumpCount (phraseCandidates text) [] pc.1]
      simp [lookupCount]
    have hpc2 : pc.2 = 3 := by
      rw [← hlook, hcount, hfst, phraseCandidates, List.count_filter hlenok,
        ← windowCount, h3]
    have helig : pc ∈ eligiblePhrases text :=
      List.mem_filter.2 ⟨hpc, by simp [hpc2]⟩
    have hsort : pc ∈ List.insertionSort countGE (eligiblePhrases text) :=
      (List.perm_insertionSort countGE (eligiblePhrases text)).mem_iff.2 helig
    have hall : extractCommonPhrases text
        = List.insertionSort countGE (eligiblePhrases text) := by
      rw [extractCommonPhrases]
      exact List.take_of_length_le
        (by rw [List.length_insertionSort]; omega)
    rw [hall]
    exact hfst ▸ List.mem_map_of_mem Prod.fst hsort

/-- C6 counterexample: in `"a b a b a b"` the phrase `"a b"` occurs exactly 3
times as an n-gram window, yet the output is empty (its length 3 fails the
`length > 10` filter), so "a phrase occurring exactly 3 times appears" is
false as stated. -/
theorem c6_counterexample :
    windowCount "a b a b a b" "a b" = 3 ∧
    extractCommonPhrases "a b a b a b" = [] := by
  constructor
  · rfl
  · rfl

/-- Witness for C6 (amended) at concrete texts. -/
theorem c6_phrase_extraction_witness :
    "a b" ∉ (extractCommonPhrases "a b a b").map Prod.fst ∧
    "financial freedom" ∈ (extractCommonPhrases
      "financial freedom now financial freedom now financial freedom now").map Prod.fst ∧
    3 ≤ (("financial freedom", 3) : String × Nat).2 :=
  ⟨(c6_phrase_extraction "a b a b").2.2.2.1 "a b" (by rfl),
   (c6_phrase_extraction
      "financial freedom now financial freedom now financial freedom now").2.2.2.2
      "financial freedom" (by rfl) (by decide) (by decide) (by decide),
   ((c6_phrase_extraction
      "financial freedom now financial freedom now financial freedom now").1
      ("financial freedom", 3) (by decide)).1⟩

/-- C7: `extractCommonPhrases` is a pure function of the input text, so two
calls on identical text return the identical ordered list; and frequency ties
are broken by first-encounter order — for every frequency value `c`, the
output's entries of frequency `c` form a prefix of the eligible entries of
frequency `c` taken in the order the phrases were first inserted into the
frequency map. -/
theorem c7_phrase_determinism :
    ∀ text : String,
      extractCommonPhrases text = extractCommonPhrases text ∧
      ∀ c : Nat,
        ((extractCommonPhrases text).filter (fun z => z.2 == c)) <+:
          ((eligiblePhrases text).filter (fun z => z.2 == c)) := by
  intro text
  refine ⟨rfl, fun c => ?_⟩
  have h1 : extractCommonPhrases text <+:
      List.insertionSort countGE (eligiblePhrases text) :=
    List.take_prefix 20 _
  have h2 := h1.filter (fun z => z.2 == c)
  rwa [filter_insertionSort_count c (eligiblePhrases text)] at h2

/-! ## Persona profile (dataOrganizer.js lines 545-558 and `analyzePersonaProfile`) -/

/-- An ideology entry: `{ type, statement, source }` (dataOrganizer.js 808-812). -/
structure IdeologyEntry where
  type : String
  statement : String
  source : String
deriving DecidableEq, Repr

/-- A financial-philosophy entry: `{ category, statement, frequency }`
(dataOrganizer.js 793-797). -/
structure FinEntry where
  category : String
  statement : String
  frequency : Nat
deriving DecidableEq, Repr

/-- A decision-pattern entry: `{ statement, context }` (dataOrganizer.js 822-825). -/
structure DecisionEntry where
  statement : String
  context : String
deriving DecidableEq, Repr

/-- A values entry: `{ statement, source }` (dataOrganizer.js 834-837). -/
structure ValueEntry where
  statement : String
  source : String
deriving DecidableEq, Repr

/-- `communicationStyle` (dataOrganizer.js 553-557). -/
structure CommStyle where
  tone : String
  vocabulary : List String
  rhetoricalDevices : List String
deriving DecidableEq, Repr

/-- The `personaProfile` accumulator (dataOrganizer.js 545-558);
`commonPhrases` entries are (phrase, frequency) pairs. -/
structure PersonaProfile where
  ideology : List IdeologyEntry
  beliefs : List String
  values : List ValueEntry
  financialPhilosophy : List FinEntry
  decisionPatterns : List DecisionEntry
  topicExpertise : List String
  commonPhrases : List (String × Nat)
  communicationStyle : CommStyle
deriving DecidableEq, Repr

/-- The freshly initialized profile (all lists empty, tone `''`). -/
def emptyProfile : PersonaProfile := ⟨[], [], [], [], [], [], [], ⟨"", [], []⟩⟩

/-- `Map.set` on a string-keyed insertion-ordered map: replace the value at an
existing key in place, else append. -/
def jsMapSet {α : Type} (key : α → String) (x : α) : List α → List α
  | [] => [x]
  | y :: ys => if key y = key x then x :: ys else y :: jsMapSet key x ys

/-- `[...new Map(list.map(item => [item.statement, item])).values()]`
(dataOrganizer.js 894-897): last-writer-wins deduplication by key, keys in
first-occurrence order. -/
def jsMapValues {α : Type} (key : α → String) (l : List α) : List α :=
  l.foldl (fun acc x => jsMapSet key x acc) []

/-- One step of JS `Set` construction. -/
def jsSetStep (acc : List String) (x : String) : List String :=
  if x ∈ acc then acc else acc ++ [x]

/-- `[...new Set(list)]` (dataOrganizer.js 905): first-occurrence dedup. -/
def jsSetDedup (l : List String) : List String :=
  l.foldl jsSetStep []

/-- Scan for `needle` as a contiguous sub-sequence starting anywhere. -/
def listContainsSeq (needle : List Char) : List Char → Bool
  | [] => needle.isPrefixOf []
  | c :: cs => needle.isPrefixOf (c :: cs) || listContainsSeq needle cs

/-- JS `String.prototype.includes` (substring containment). -/
def jsIncludes (hay needle : String) : Bool :=
  listContainsSeq needle.data hay.data

/-- dataOrganizer.js 908-909: `profile.ideology.map(i => i.statement).join(' ')
+ profile.financialPhilosophy.map(f => f.statement).join(' ')`. -/
def toneTextOf (ideology : List IdeologyEntry) (fin : List FinEntry) : String :=
  String.intercalate " " (ideology.map (fun e => e.statement))
    ++ String.intercalate " " (fin.map (fun e => e.statement))

/-- dataOrganizer.js 892-918, `analyzePersonaProfile`: deduplicate the four
statement categories (Map semantics), truncate all categories, dedup + cap
topicExpertise, then derive the tone from the concatenated ideology and
financial statements with directive markers checked first. -/
def analyzePersonaProfile (p : PersonaProfile) : PersonaProfile :=
  let ideology := (jsMapValues (fun e : IdeologyEntry => e.statement) p.ideology).take 50
  let fin := (jsMapValues (fun e : FinEntry => e.statement) p.financialPhilosophy).take 50
  let dec := (jsMapValues (fun e : DecisionEntry => e.statement) p.decisionPatterns).take 30
  let vals := (jsMapValues (fun e : ValueEntry => e.statement) p.values).take 30
  let phrases := p.commonPhrases.take 30
  let topics := (jsSetDedup p.topicExpertise).take 50
  let allText := toneTextOf ideology fin
  let tone :=
    if jsIncludes allText "should" || jsIncludes allText "must" then "directive"
    else if jsIncludes allText "i think" || jsIncludes allText "in my opinion" then
      "conversational"
    else "informative"
  { p with
    ideology := ideology
    financialPhilosophy := fin
    decisionPatterns := dec
    values := vals
    commonPhrases := phrases
    topicExpertise := topics
    communicationStyle := { p.communicationStyle with tone := tone } }

/-! ## Lemmas about the JS `Map`/`Set` deduplication -/

lemma keys_jsMapSet {α : Type} (key : α → String) (x : α) :
    ∀ m : List α, (jsMapSet key x m).map key = jsSetStep (m.map key) (key x) := by
  intro m
  induction m with
  | nil => simp [jsMapSet, jsSetStep]
  | cons y ys IH =>
      simp only [jsMapSet]
      by_cases h : key y = key x
      · rw [if_pos h]
        simp only [List.map_cons, jsSetStep]
        rw [if_pos (by simp [h])]
        rw [h]
      · rw [if_neg h]
        simp only [List.map_cons, IH, jsSetStep]
        by_cases hm : key x ∈ ys.map key
        · rw [if_pos hm, if_pos (by simp [hm])]
        · rw [if_neg hm, if_neg (by simp [hm]; exact fun he => h he.symm)]
          simp

lemma mem_jsMapSet_nodup {α : Type} (key : α → String) (x : α) :
    ∀ m : List α, (m.map key).Nodup →
      ∀ z ∈ jsMapSet key x m, z = x ∨ (z ∈ m ∧ ¬ key z = key x) := by
  intro m
  induction m with
  | nil =>
      intro _ z hz
      simp only [jsMapSet, List.mem_singleton] at hz
      exact Or.inl hz
  | cons y ys IH =>
      intro hnd z hz
      simp only [List.map_cons, List.nodup_cons] at hnd
      simp only [jsMapSet] at hz
      by_cases h : key y = key x
      · rw [if_pos h] at hz
        rcases List.mem_cons.1 hz with h1 | h1
        · exact Or.inl h1
        · refine Or.inr ⟨List.mem_cons_of_mem y h1, ?_⟩
          intro he
          exact hnd.1 (h ▸ he ▸ List.mem_map_of_mem key h1)
      · rw [if_neg h] at hz
        rcases List.mem_cons.1 hz with h1 | h1
        · exact Or.inr ⟨h1 ▸ List.mem_cons_self y ys, h1 ▸ h⟩
        · rcases IH hnd.2 z h1 with h2 | h2
          · exact Or.inl h2
          · exact Or.inr ⟨List.mem_cons_of_mem y h2.1, h2.2⟩

lemma nodup_jsSetStep (acc : List String) (k : String) (h : acc.Nodup) :
    (jsSetStep acc k).Nodup := by
  rw [jsSetStep]
  by_cases hk : k ∈ acc
  · rwa [if_pos hk]
  · rw [if_neg hk]
    simp [List.nodup_append, h, hk]

lemma keys_nodup_jsMapSet {α : Type} (key : α → String) (x : α) (m : List α)
    (hm : (m.map key).Nodup) : ((jsMapSet key x m).map key).Nodup := by
  rw [keys_jsMapSet]
  exact nodup_jsSetStep _ _ hm

lemma keys_jsMapValues {α : Type} (key : α → String) :
    ∀ (l : List α) (acc : List α),
      ((l.foldl (fun a x => jsMapSet key x a) acc).map key)
        = (l.map key).foldl jsSetStep (acc.map key) := by
  intro l
  induction l with
  | nil => intro acc; rfl
  | cons x xs IH =>
      intro acc
      rw [List.foldl_cons, IH (jsMapSet key x acc), keys_jsMapSet, List.map_cons,
        List.foldl_cons]

lemma nodup_foldl_jsSetStep :
    ∀ (l : List String) (acc : List String), acc.Nodup → (l.foldl jsSetStep acc).Nodup := by
  intro l
  induction l with
  | nil => intro acc h; simpa using h
  | cons x xs IH =>
      intro acc h
      rw [List.foldl_cons]
      exact IH (jsSetStep acc x) (nodup_jsSetStep acc x h)

lemma keys_nodup_jsMapValues {α : Type} (key : α → String) (l : List α) :
    ((jsMapValues key l).map key).Nodup := by
  rw [jsMapValues, keys_jsMapValues key l []]
  exact nodup_foldl_jsSetStep (l.map key) [] (by simp)

lemma jsMapValues_lastWins_aux {α : Type} (key : α → String) :
    ∀ (todo done acc : List α),
      (acc.map key).Nodup →
      (∀ x ∈ acc, done.reverse.find? (fun y => key y == key x) = some x) →
      ((((todo.foldl (fun a x => jsMapSet key x a) acc).map key).Nodup) ∧
       ∀ x ∈ todo.foldl (fun a x => jsMapSet key x a) acc,
         (done ++ todo).reverse.find? (fun y => key y == key x) = some x) := by
  intro todo
  induction todo with
  | nil =>
      intro done acc hnd hfind
      refine ⟨hnd, ?_⟩
      simpa using hfind
  | cons z zs IH =>
      intro done acc hnd hfind
      rw [List.foldl_cons]
      have hstep := IH (done ++ [z]) (jsMapSet key z acc)
        (keys_nodup_jsMapSet key z acc hnd) ?_
      · refine ⟨hstep.1, ?_⟩
        intro x hx
        have := hstep.2 x hx
        rwa [List.append_assoc] at this
      · intro x hx
        rcases mem_jsMapSet_nodup key z acc hnd x hx with h | ⟨hmem, hne⟩
        · subst h
          rw [List.reverse_append]
          simp
        · rw [List.reverse_append]
          have hz : (key z == key x) = false := by
            simp only [beq_eq_false_iff_ne]
            exact fun he => hne he.symm
          simp only [List.reverse_cons, List.reverse_nil, List.nil_append,
            List.singleton_append, List.find?_cons]
          rw [hz]
          exact hfind x hmem

lemma jsMapValues_lastWins {α : Type} (key : α → String) (l : List α) :
    ∀ x ∈ jsMapValues key l, l.reverse.find? (fun y => key y == key x) = some x := by
  intro x hx
  have h := (jsMapValues_lastWins_aux key l [] [] (by simp) (by simp)).2 x hx
  simpa using h

lemma jsMapSet_of_key_not_mem {α : Type} (key : α → String) (x : α) :
    ∀ m : List α, key x ∉ m.map key → jsMapSet key x m = m ++ [x] := by
  intro m
  induction m with
  | nil => intro _; rfl
  | cons y ys IH =>
      intro h
      simp only [List.map_cons, List.mem_cons, not_or] at h
      simp only [jsMapSet]
      rw [if_neg (fun he => h.1 he.symm), IH h.2]
      rfl

lemma jsMapValues_of_nodup_aux {α : Type} (key : α → String) :
    ∀ (l acc : List α), (((acc ++ l).map key).Nodup) →
      l.foldl (fun a x => jsMapSet key x a) acc = acc ++ l := by
  intro l
  induction l with
  | nil => intro acc _; simp
  | cons z zs IH =>
      intro acc hnd
      rw [List.foldl_cons]
      have hz : key z ∉ acc.map key := by
        intro hmem
        rw [List.map_append] at hnd
        rcases List.nodup_append.1 hnd with ⟨_, _, hdisj⟩
        exact hdisj hmem (by simp)
      rw [jsMapSet_of_key_not_mem key z acc hz]
      have := IH (acc ++ [z]) (by simpa using hnd)
      rw [this]
      simp

lemma jsMapValues_of_nodup {α : Type} (key : α → String) (l : List α)
    (h : (l.map key).Nodup) : jsMapValues key l = l := by
  have := jsMapValues_of_nodup_aux key l [] (by simpa using h)
  simpa [jsMapValues] using this

lemma jsSetStep_of_not_mem (acc : List String) (k : String) (h : k ∉ acc) :
    jsSetStep acc k = acc ++ [k] := by
  rw [jsSetStep, if_neg h]

lemma jsSetDedup_of_nodup_aux :
    ∀ (l acc : List String), (acc ++ l).Nodup → l.foldl jsSetStep acc = acc ++ l := by
  intro l
  induction l with
  | nil => intro acc _; simp
  | cons z zs IH =>
      intro acc hnd
      rw [List.foldl_cons]
      have hz : z ∉ acc := by
        rcases List.nodup_append.1 hnd with ⟨_, _, hdisj⟩
        exact fun hm => hdisj hm (by simp)
      rw [jsSetStep_of_not_mem acc z hz]
      have := IH (acc ++ [z]) (by simpa using hnd)
      rw [this]
      simp

lemma jsSetDedup_of_nodup (l : List String) (h : l.Nodup) : jsSetDedup l = l := by
  have := jsSetDedup_of_nodup_aux l [] (by simpa using h)
  simpa [jsSetDedup] using this

lemma jsSetDedup_nodup (l : List String) : (jsSetDedup l).Nodup :=
  nodup_foldl_jsSetStep l [] (by simp)

/-! ## Theorems for claims C8, C9, C10 -/

/-- C8: `analyzePersonaProfile` deduplicates each category list by exact
statement-string equality — keeping, for duplicate keys, the last-written
entry at the list position of the key's first occurrence — and truncates
ideology/financialPhilosophy to 50, decisionPatterns/values to 30,
commonPhrases to 30 and topicExpertise to 50 entries. -/
theorem c8_profile_dedup_truncation :
    ∀ p : PersonaProfile,
      ((analyzePersonaProfile p).ideology.length ≤ 50 ∧
       (analyzePersonaProfile p).financialPhilosophy.length ≤ 50 ∧
       (analyzePersonaProfile p).decisionPatterns.length ≤ 30 ∧
       (analyzePersonaProfile p).values.length ≤ 30 ∧
       (analyzePersonaProfile p).commonPhrases.length ≤ 30 ∧
       (analyzePersonaProfile p).topicExpertise.length ≤ 50) ∧
      (((analyzePersonaProfile p).ideology.map (fun e => e.statement)).Nodup ∧
       ((analyzePersonaProfile p).financialPhilosophy.map (fun e => e.statement)).Nodup ∧
       ((analyzePersonaProfile p).decisionPatterns.map (fun e => e.statement)).Nodup ∧
       ((analyzePersonaProfile p).values.map (fun e => e.statement)).Nodup ∧
       (analyzePersonaProfile p).topicExpertise.Nodup) ∧
      ((analyzePersonaProfile p).ideology.map (fun e => e.statement)
        = (jsSetDedup (p.ideology.map (fun e => e.statement))).take 50) ∧
      (∀ x ∈ (analyzePersonaProfile p).ideology,
        p.ideology.reverse.find? (fun y => y.statement == x.statement) = some x) := by
  intro p
  simp only [analyzePersonaProfile]
  refine ⟨⟨?_, ?_, ?_, ?_, ?_, ?_⟩, ⟨?_, ?_, ?_, ?_, ?_⟩, ?_, ?_⟩
  · exact List.length_take_le 50 _
  · exact List.length_take_le 50 _
  · exact List.length_take_le 30 _
  · exact List.length_take_le 30 _
  · exact List.length_take_le 30 _
  · exact List.length_take_le 50 _
  · rw [List.map_take]
    exact List.Pairwise.sublist (List.take_sublist 50 _) (keys_nodup_jsMapValues _ _)
  · rw [List.map_take]
    exact List.Pairwise.sublist (List.take_sublist 50 _) (keys_nodup_jsMapValues _ _)
  · rw [List.map_take]
    exact List.Pairwise.sublist (List.take_sublist 30 _) (keys_nodup_jsMapValues _ _)
  · rw [List.map_take]
    exact List.Pairwise.sublist (List.take_sublist 30 _) (keys_nodup_jsMapValues _ _)
  · exact List.Pairwise.sublist (List.take_sublist 50 _) (jsSetDedup_nodup _)
  · rw [List.map_take, jsMapValues, keys_jsMapValues]
    rfl
  · intro x hx
    exact jsMapValues_lastWins (fun e : IdeologyEntry => e.statement) p.ideology x
      (List.mem_of_mem_take hx)

/-- Witness for C8: two ideology entries with the same statement text collapse
to one entry (the last-written one, at the first occurrence's position). -/
theorem c8_profile_dedup_truncation_witness :
    (analyzePersonaProfile
        ⟨[⟨"belief", "invest early always", "v1"⟩, ⟨"belief", "invest early always", "v2"⟩],
         [], [], [], [], [], [], ⟨"", [], []⟩⟩).ideology
      = [⟨"belief", "invest early always", "v2"⟩] ∧
    (([⟨"belief", "invest early always", "v1"⟩,
       ⟨"belief", "invest early always", "v2"⟩] : List IdeologyEntry).reverse.find?
        (fun y => y.statement ==
          (⟨"belief", "invest early always", "v2"⟩ : IdeologyEntry).statement))
      = some ⟨"belief", "invest early always", "v2"⟩ :=
  ⟨by decide,
   (c8_profile_dedup_truncation
      ⟨[⟨"belief", "invest early always", "v1"⟩, ⟨"belief", "invest early always", "v2"⟩],
       [], [], [], [], [], [], ⟨"", [], []⟩⟩).2.2.2
      ⟨"belief", "invest early always", "v2"⟩ (by decide)⟩

/-- The text the tone classification inspects: the concatenation of the
finalized ideology and financialPhilosophy statements. -/
def toneSourceText (p : PersonaProfile) : String :=
  toneTextOf (analyzePersonaProfile p).ideology (analyzePersonaProfile p).financialPhilosophy

lemma analyze_tone_eq (p : PersonaProfile) :
    (analyzePersonaProfile p).communicationStyle.tone =
      if (jsIncludes (toneSourceText p) "should"
          || jsIncludes (toneSourceText p) "must") = true then "directive"
      else if (jsIncludes (toneSourceText p) "i think"
          || jsIncludes (toneSourceText p) "in my opinion") = true then "conversational"
      else "informative" := rfl

/-- C9: the communication-style tone is an exclusive three-way,
first-match-wins classification over the concatenation of the finalized
ideology and financialPhilosophy statements: directive markers
(`should`/`must`) first, then conversational markers
(`i think`/`in my opinion`), else informative. -/
theorem c9_tone_classification :
    ∀ p : PersonaProfile,
      ((jsIncludes (toneSourceText p) "should"
          || jsIncludes (toneSourceText p) "must") = true →
        (analyzePersonaProfile p).communicationStyle.tone = "directive") ∧
      ((jsIncludes (toneSourceText p) "should"
          || jsIncludes (toneSourceText p) "must") = false →
       (jsIncludes (toneSourceText p) "i think"
          || jsIncludes (toneSourceText p) "in my opinion") = true →
        (analyzePersonaProfile p).communicationStyle.tone = "conversational") ∧
      ((jsIncludes (toneSourceText p) "should"
          || jsIncludes (toneSourceText p) "must") = false →
       (jsIncludes (toneSourceText p) "i think"
          || jsIncludes (toneSourceText p) "in my opinion") = false →
        (analyzePersonaProfile p).communicationStyle.tone = "informative") ∧
      ((analyzePersonaProfile p).communicationStyle.tone = "directive" ∨
       (analyzePersonaProfile p).communicationStyle.tone = "conversational" ∨
       (analyzePersonaProfile p).communicationStyle.tone = "informative") := by
  intro p
  refine ⟨?_, ?_, ?_, ?_⟩
  · intro h
    rw [analyze_tone_eq, if_pos h]
  · intro h1 h2
    rw [analyze_tone_eq, if_neg (by simp [h1]), if_pos h2]
  · intro h1 h2
    rw [analyze_tone_eq, if_neg (by simp [h1]), if_neg (by simp [h2])]
  · rw [analyze_tone_eq]
    split
    · exact Or.inl rfl
    · split
      · exact Or.inr (Or.inl rfl)
      · exact Or.inr (Or.inr rfl)

/-- Witness for C9: a profile whose statements contain both `should` and
`i think` classifies as directive; one with only `i think` as conversational;
the empty profile as informative. -/
theorem c9_tone_classification_witness :
    (analyzePersonaProfile
        ⟨[⟨"belief", "you should save", "v"⟩, ⟨"belief", "i think so too", "v"⟩],
         [], [], [], [], [], [], ⟨"", [], []⟩⟩).communicationStyle.tone = "directive" ∧
    (analyzePersonaProfile
        ⟨[⟨"belief", "i think so too", "v"⟩],
         [], [], [], [], [], [], ⟨"", [], []⟩⟩).communicationStyle.tone = "conversational" ∧
    (analyzePersonaProfile emptyProfile).communicationStyle.tone = "informative" :=
  ⟨(c9_tone_classification
      ⟨[⟨"belief", "you should save", "v"⟩, ⟨"belief", "i think so too", "v"⟩],
       [], [], [], [], [], [], ⟨"", [], []⟩⟩).1 (by decide),
   (c9_tone_classification
      ⟨[⟨"belief", "i think so too", "v"⟩],
       [], [], [], [], [], [], ⟨"", [], []⟩⟩).2.1 (by decide) (by decide),
   (c9_tone_classification emptyProfile).2.2.1 (by decide) (by decide)⟩

/-- C10: `analyzePersonaProfile` is idempotent — deduplicating already
deduplicated lists, truncating already capped lists, and re-deriving the tone
from the unchanged statement lists all leave the profile unchanged. -/
theorem c10_analyze_idempotent :
    ∀ p : PersonaProfile,
      analyzePersonaProfile (analyzePersonaProfile p) = analyzePersonaProfile p := by
  intro p
  have hIde : (jsMapValues (fun e : IdeologyEntry => e.statement)
      ((jsMapValues (fun e : IdeologyEntry => e.statement) p.ideology).take 50)).take 50
      = (jsMapValues (fun e : IdeologyEntry => e.statement) p.ideology).take 50 := by
    rw [jsMapValues_of_nodup _ _ (by
      rw [List.map_take]
      exact List.Pairwise.sublist (List.take_sublist 50 _) (keys_nodup_jsMapValues _ _))]
    rw [List.take_take, Nat.min_self]
  have hFin : (jsMapValues (fun e : FinEntry => e.statement)
      ((jsMapValues (fun e : FinEntry => e.statement) p.financialPhilosophy).take 50)).take 50
      = (jsMapValues (fun e : FinEntry => e.statement) p.financialPhilosophy).take 50 := by
    rw [jsMapValues_of_nodup _ _ (by
      rw [List.map_take]
      exact List.Pairwise.sublist (List.take_sublist 50 _) (keys_nodup_jsMapValues _ _))]
    rw [List.take_take, Nat.min_self]
  have hDec : (jsMapValues (fun e : DecisionEntry => e.statement)
      ((jsMapValues (fun e : DecisionEntry => e.statement) p.decisionPatterns).take 30)).take 30
      = (jsMapValues (fun e : DecisionEntry => e.statement) p.decisionPatterns).take 30 := by
    rw [jsMapValues_of_nodup _ _ (by
      rw [List.map_take]
      exact List.Pairwise.sublist (List.take_sublist 30 _) (keys_nodup_jsMapValues _ _))]
    rw [List.take_take, Nat.min_self]
  have hVal : (jsMapValues (fun e : ValueEntry => e.statement)
      ((jsMapValues (fun e : ValueEntry => e.statement) p.values).take 30)).take 30
      = (jsMapValues (fun e : ValueEntry => e.statement) p.values).take 30 := by
    rw [jsMapValues_of_nodup _ _ (by
      rw [List.map_take]
      exact List.Pairwise.sublist (List.take_sublist 30 _) (keys_nodup_jsMapValues _ _))]
    rw [List.take_take, Nat.min_self]
  have hTop : (jsSetDedup ((jsSetDedup p.topicExpertise).take 50)).take 50
      = (jsSetDedup p.topicExpertise).take 50 := by
    rw [jsSetDedup_of_nodup _
      (List.Pairwise.sublist (List.take_sublist 50 _) (jsSetDedup_nodup _))]
    rw [List.take_take, Nat.min_self]
  have hPhr : (p.commonPhrases.take 30).take 30 = p.commonPhrases.take 30 := by
    rw [List.take_take, Nat.min_self]
  simp only [analyzePersonaProfile]
  simp only [hIde, hFin, hDec, hVal, hTop, hPhr]

/-! ## ECMAScript regex model for the `\b(alt1|alt2|...)\b` patterns with the
`g` and `i` flags (dataOrganizer.js 767-784, 818, 830)

`extractSentencesContaining` (lines 853-856) runs `sentences.filter(s =>
pattern.test(s))` with a **global** regex: `RegExp.prototype.test` on a
`g`-flagged regex starts matching at `pattern.lastIndex`, sets `lastIndex` to
the match end on success and resets it to 0 on failure, and fails outright
when `lastIndex` exceeds the string length — state that carries over between
the `filter` callback's calls on *different* sentences. -/

/-- JS word character for `\b`: `[A-Za-z0-9_]`. -/
def jsIsWordChar (c : Char) : Bool :=
  ('a' ≤ c && c ≤ 'z') || ('A' ≤ c && c ≤ 'Z') || ('0' ≤ c && c ≤ '9') || c = '_'

/-- Whether the character at position `i` (if any) is a word character. -/
def isWordAt (s : List Char) (i : Nat) : Bool :=
  match s[i]? with
  | some c => jsIsWordChar c
  | none => false

/-- `\b` holds at position `i` of `s`. -/
def jsWordBoundary (s : List Char) (i : Nat) : Bool :=
  if i = 0 then isWordAt s 0 else isWordAt s (i - 1) != isWordAt s i

/-- Case-insensitive literal match of `alt` (given lower-case) at position `i`. -/
def matchAlt (s : List Char) (i : Nat) (alt : List Char) : Bool :=
  decide (i + alt.length ≤ s.length) && (((s.drop i).take alt.length).map Char.toLower == alt)

/-- Attempt the whole pattern `\b(alt1|...)\b` at position `i`: a leading
`\b`, then the alternatives in source order (ECMAScript alternation order),
each followed by the trailing `\b`.  Returns the match end. -/
def tryMatchAt (alts : List (List Char)) (s : List Char) (i : Nat) : Option Nat :=
  if jsWordBoundary s i then
    (alts.find? (fun a => matchAlt s i a && jsWordBoundary s (i + a.length))).map
      (fun a => i + a.length)
  else none

/-- Forward search (non-sticky): first match at position `≥ start`;
returns (start, end) of the match. -/
def regexFindFrom (alts : List (List Char)) (s : List Char) (start : Nat) :
    Option (Nat × Nat) :=
  ((List.range (s.length + 1 - start)).map (start + ·)).findSome?
    (fun i => (tryMatchAt alts s i).map (fun e => (i, e)))

/-- `pattern.test(str)` for a `g`-flagged regex, given the current
`lastIndex`: `none` on failure (lastIndex resets to 0), `some e` on success
(lastIndex becomes the match end `e`). -/
def regexTestAt (alts : List (List Char)) (s : List Char) (li : Nat) : Option Nat :=
  if s.length < li then none
  else (regexFindFrom alts s li).map (fun ie => ie.2)

/-- Number of matches of `text.match(pattern)` for the global pattern
(`0` when `null`): repeated search, continuing at each match end (advancing
by one on an empty match, per `AdvanceStringIndex`).  The fuel
`s.length + 1` dominates the number of possible starts. -/
def regexCountFrom (alts : List (List Char)) (s : List Char) :
    Nat → Nat → Nat
  | 0, _ => 0
  | fuel + 1, start =>
      match regexFindFrom alts s start with
      | none => 0
      | some ie => 1 + regexCountFrom alts s fuel (if ie.2 = ie.1 then ie.2 + 1 else ie.2)

/-- `(text.match(pattern) || []).length`. -/
def regexCount (alts : List String) (text : String) : Nat :=
  regexCountFrom (alts.map String.data) text.data (text.data.length + 1) 0

/-- `text.split(/[.!?]+/)` (dataOrganizer.js line 854). -/
def jsSentences (text : String) : List String :=
  (jsSplitRuns jsIsSentenceEnd text.data).map (fun l => String.mk l)

/-- The stateful filter of `extractSentencesContaining`: one shared regex
object, its `lastIndex` threaded through successive `test` calls. -/
def filterStateful (alts : List (List Char)) : List String → Nat → List String
  | [], _ => []
  | s :: rest, li =>
      match regexTestAt alts s.data li with
      | some e => s :: filterStateful alts rest e
      | none => filterStateful alts rest 0

/-- dataOrganizer.js 853-856, `extractSentencesContaining(text, pattern)`:
`text.split(/[.!?]+/).filter(s => pattern.test(s))`; `lastIndex` is 0 on
entry (a fresh pattern object, or one just reset by `String.prototype.match`). -/
def extractSentencesContaining (text : String) (alts : List String) : List String :=
  filterStateful (alts.map String.data) (jsSentences text) 0

/-- Stateless truth: does the sentence contain a match of the pattern? -/
def sentenceMatches (alts : List String) (s : String) : Bool :=
  (regexFindFrom (alts.map String.data) s.data 0).isSome

/-- JS `String.prototype.trim`. -/
def jsTrim (s : String) : String :=
  String.mk (((s.data.dropWhile jsIsWs).reverse.dropWhile jsIsWs).reverse)

/-- The financial patterns (dataOrganizer.js 767-776), alternation order
preserved. -/
def financialPatterns : List (List String × String) :=
  [(["invest", "investment", "investing", "portfolio", "asset", "stock", "mutual fund",
     "equity", "debt", "sip"], "investment_advice"),
   (["budget", "budgeting", "expense", "saving", "save money", "financial plan"],
     "budgeting"),
   (["debt", "loan", "emi", "credit card", "liability", "borrow"], "debt_management"),
   (["wealth", "rich", "financial freedom", "retire", "retirement", "fire"],
     "wealth_building"),
   (["risk", "diversif", "return", "profit", "loss", "market"], "risk_management"),
   (["tax", "taxation", "tax saving", "deduction", "exemption"], "tax_planning"),
   (["insurance", "health insurance", "term insurance", "cover"], "insurance"),
   (["emergency fund", "liquidity", "cash reserve"], "emergency_planning")]

/-- The ideology patterns (dataOrganizer.js 779-784). -/
def ideologyPatterns : List (List String × String) :=
  [(["i believe", "i think", "in my opinion", "my view", "personally"], "belief"),
   (["should", "must", "need to", "have to", "important to"], "directive"),
   (["always", "never", "every time", "whenever"], "principle"),
   (["because", "since", "therefore", "that's why", "reason"], "reasoning")]

/-- The decision pattern (dataOrganizer.js 818). -/
def decisionAlts : List String :=
  ["decide", "decision", "choose", "chose", "select", "prefer", "recommend", "suggest"]

/-- The values pattern (dataOrganizer.js 830). -/
def valueAlts : List String :=
  ["important", "essential", "crucial", "key", "critical", "matter", "value", "priority",
   "focus"]

/-- Shorthand for the first financial pattern's alternatives. -/
def investAlts : List String :=
  ["invest", "investment", "investing", "portfolio", "asset", "stock", "mutual fund",
   "equity", "debt", "sip"]

/-- dataOrganizer.js 763-848, `extractIdeologyFromText`: early return on empty
text; the financial patterns (entries pushed when the text has more than 5
matches: first 10 filtered sentences of length (20,300), tagged with category
and total match count); the ideology patterns (first 5 sentences of length
(30,300), tagged with type and `title || 'video'`); decision patterns (5) and
values (3); finally the common phrases, appended when their phrase key is not
yet present. -/
def extractIdeologyFromText (text title _description : String)
    (profile : PersonaProfile) : PersonaProfile :=
  if text = "" then profile
  else
    let p1 := financialPatterns.foldl (fun pr ac =>
      let count := regexCount ac.1 text
      if 5 < count then
        let adds : List FinEntry :=
          (((extractSentencesContaining text ac.1).take 10).filter
              (fun s => decide (20 < s.length) && decide (s.length < 300))).map
            (fun s => ⟨ac.2, jsTrim s, count⟩)
        { pr with financialPhilosophy := pr.financialPhilosophy ++ adds }
      else pr) profile
    let src := if title = "" then "video" else title
    let p2 := ideologyPatterns.foldl (fun pr ac =>
      let adds : List IdeologyEntry :=
        (((extractSentencesContaining text ac.1).take 5).filter
            (fun s => decide (30 < s.length) && decide (s.length < 300))).map
          (fun s => ⟨ac.2, jsTrim s, src⟩)
      { pr with ideology := pr.ideology ++ adds }) p1
    let decAdds : List DecisionEntry :=
      (((extractSentencesContaining text decisionAlts).take 5).filter
          (fun s => decide (30 < s.length) && decide (s.length < 300))).map
        (fun s => ⟨jsTrim s, src⟩)
    let p3 := { p2 with decisionPatterns := p2.decisionPatterns ++ decAdds }
    let valAdds : List ValueEntry :=
      (((extractSentencesContaining text valueAlts).take 3).filter
          (fun s => decide (30 < s.length) && decide (s.length < 300))).map
        (fun s => ⟨jsTrim s, src⟩)
    let p4 := { p3 with values := p3.values ++ valAdds }
    let phrases := (extractCommonPhrases text).foldl (fun l ph =>
      if l.any (fun q => q.1 == ph.1) then l else l ++ [ph]) p4.commonPhrases
    { p4 with commonPhrases := phrases }

/-! ## Theorem for claim C5 -/

/-- A text on which the stateful `g`-flag regex drops a matching sentence. -/
def c5FailingText : String :=
  "you should invest invest invest invest invest invest wisely today.i invest in cash okay"

/-- C5 (code-bug evidence): on `c5FailingText` the investment pattern has 7
matches (> 5), the text splits into two sentences that both match the
pattern, and the second one is 21 characters long (within the (20,300)
bounds) — yet `extractSentencesContaining` returns only the first sentence,
because the shared regex's `lastIndex` (17, the end of the first sentence's
match) exceeds the position of the second sentence's only match, and
`extractIdeologyFromText` therefore appends only one financialPhilosophy
entry instead of both eligible sentences.  This contradicts the function's
own documentation ("Extract sentences containing a specific pattern") and
the claim. -/
theorem c5_stateful_regex_code_bug :
    jsSentences c5FailingText
      = ["you should invest invest invest invest invest invest wisely today",
         "i invest in cash okay"] ∧
    sentenceMatches investAlts "i invest in cash okay" = true ∧
    20 < ("i invest in cash okay" : String).length ∧
    ("i invest in cash okay" : String).length < 300 ∧
    regexCount investAlts c5FailingText = 7 ∧
    extractSentencesContaining c5FailingText investAlts
      = ["you should invest invest invest invest invest invest wisely today"] ∧
    (extractIdeologyFromText c5FailingText "t" "" emptyProfile).financialPhilosophy
      = [⟨"investment_advice",
          "you should invest invest invest invest invest invest wisely today", 7⟩] :=
  ⟨by decide, by decide, by decide, by decide, by decide, by decide, by decide⟩
